import Mathlib

/-!
Verification development for the mtg-tracker client-side state
synchronization and derived-view engine.

The JavaScript source is shallowly embedded:
pure functions become Lean functions, React state updates become explicit
state passing, and JS numbers appearing here (quantities, timestamps,
popularity) are integers in the source, modelled as `Int`/`Nat`.

Spreadsheet cells are strings.  A cell is modelled by `Cell`:
`Cell.json j` stands for the string `JSON.stringify(j)` (the host
serializer, a builtin, is injective on documents and inverted by
`JSON.parse`), and `Cell.raw s` stands for any other string, i.e. a string
that is not the serialization of a JSON document; `JSON.parse` fails on it.
This captures exactly the parse-success/parse-failure behaviour the codec
relies on without re-verifying the host JSON grammar.
-/

/-- A JSON document, as produced and consumed by the host JSON builtins. -/
inductive Json where
  | str (s : String)
  | num (n : Int)
  | bool (b : Bool)
  | jnull
  | arr (elems : List Json)
  | obj (fields : List (String × Json))

/-- One spreadsheet cell: either the serialization of a JSON document, or
any other plain string (on which JSON.parse fails). -/
inductive Cell where
  | raw (s : String)
  | json (j : Json)

/-- JSON.parse on a cell: succeeds exactly on serialized documents. -/
def jsParse : Cell → Option Json
  | .raw _ => none
  | .json j => some j

/-- JS `cell || dflt` for string cells: only the empty string is falsy
(a serialized JSON document is never the empty string). -/
def cellOr (c dflt : Cell) : Cell :=
  match c with
  | .raw "" => dflt
  | _ => c

/-- Minimal JSON string escaping (quote and backslash), printer side only. -/
def escapeJson (s : String) : String :=
  s.toList.foldl
    (fun acc c =>
      acc ++ (if c = '"' then "\\\"" else if c = '\\' then "\\\\" else String.singleton c))
    ""

/-- JS `x || d` for integer numbers: 0 is falsy. -/
def jsOr (n d : Int) : Int := if n = 0 then d else n

/-- The decimal digit character for `d` (0-9). -/
def digitChar (d : Nat) : Char := Char.ofNat (48 + d)

/-- Little-endian decimal digits of `n`, with explicit fuel so the
definition is structural and kernel-reducible. -/
def natDigitsLEAux : Nat → Nat → List Char
  | 0, _ => []
  | fuel + 1, n => if n = 0 then [] else digitChar (n % 10) :: natDigitsLEAux fuel (n / 10)

def natDigitsLE (n : Nat) : List Char := natDigitsLEAux n n

/-- Decimal rendering of a natural number, as JS `String(n)`. -/
def natToString (n : Nat) : String :=
  if n = 0 then "0" else String.mk (natDigitsLE n).reverse

/-- JS `String(q)` on an integer. -/
def jsIntToString (q : Int) : String :=
  if q < 0 then "-" ++ natToString q.natAbs else natToString q.natAbs

/-- Value of a big-endian list of digit characters. -/
def natOfDigits (ds : List Char) : Nat :=
  ds.foldl (fun acc c => 10 * acc + (c.toNat - 48)) 0

/-- Reads the leading run of decimal digits; `none` if there is none. -/
def digitsHead (cs : List Char) : Option Nat :=
  let ds := cs.takeWhile Char.isDigit
  if ds.isEmpty then none else some (natOfDigits ds)

/-- JS `parseInt(s)` (radix 10): skip leading whitespace, optional sign,
then the longest digit run; NaN (here `none`) if no digits. -/
def parseIntJS (s : String) : Option Int :=
  match s.toList.dropWhile Char.isWhitespace with
  | '-' :: rest => (digitsHead rest).map (fun (n : Nat) => -(n : Int))
  | '+' :: rest => (digitsHead rest).map (fun (n : Nat) => (n : Int))
  | cs => (digitsHead cs).map (fun (n : Nat) => (n : Int))

/-- JS `parseInt(row[i]) || 1`: NaN and 0 both fall back to 1. -/
def parseIntOr1 (s : String) : Int :=
  match parseIntJS s with
  | none => 1
  | some n => if n = 0 then 1 else n

/-- Splits a character list at every occurrence of `sep`
(JS `String.prototype.split` with a one-character separator). -/
def splitOnChar (sep : Char) : List Char → List (List Char)
  | [] => [[]]
  | c :: cs =>
    let r := splitOnChar sep cs
    if c = sep then [] :: r
    else
      match r with
      | [] => [[c]]
      | h :: t => (c :: h) :: t

/-- Splits a character list at every character satisfying `p`. -/
def splitIf (p : Char → Bool) : List Char → List (List Char)
  | [] => [[]]
  | c :: cs =>
    let r := splitIf p cs
    if p c then [] :: r
    else
      match r with
      | [] => [[c]]
      | h :: t => (c :: h) :: t

/-- JS `String.prototype.trim`. -/
def trimList (cs : List Char) : List Char :=
  ((cs.dropWhile Char.isWhitespace).reverse.dropWhile Char.isWhitespace).reverse

/-- JS `String.prototype.toLowerCase` (ASCII; card names use ASCII). -/
def jsStrToLower (s : String) : String := String.mk (s.toList.map Char.toLower)

/-- Known MTG supertypes, stripped when computing the type permutation
(mirrors the `SUPERTYPES` set in the source). -/
def SUPERTYPES : List String :=
  ["Legendary", "Basic", "Snow", "World", "Token", "Elite", "Ongoing"]

/-- `getTypePermutation(typeLine)`: take the part before the em-dash,
split into words, drop supertypes, rejoin; empty result becomes "Other". -/
def getTypePermutation (typeLine : String) : String :=
  let superPart := (splitOnChar '—' typeLine.toList).headD []
  let words := ((splitIf Char.isWhitespace (trimList superPart)).map String.mk).filter
    (fun w => w ≠ "")
  let mainTypes := words.filter (fun w => w ∉ SUPERTYPES)
  let joined := String.intercalate " " mainTypes
  if joined = "" then "Other" else joined

/-- The type-permutation key as worded by the specification: strip the
fixed supertype set and everything after the subtype separator, join the
remaining words in original order, and map an empty result to "Other". -/
def typePermutationSpec (typeLine : String) : String :=
  let beforeSep := trimList ((splitOnChar '—' typeLine.toList).headD [])
  let names := (splitIf Char.isWhitespace beforeSep).map String.mk
  let kept := names.filter (fun w => ¬ (w = "" ∨ w ∈ SUPERTYPES))
  let joined := String.intercalate " " kept
  if joined = "" then "Other" else joined

/-- A card in the collection: the card-database payload fields the core
actually touches, plus the user-owned quantity and acquisition time. -/
structure Card where
  id : String := ""
  name : String := ""
  set_name : String := ""
  set : String := ""
  collector_number : String := ""
  type_line : String := ""
  oracle_text : String := ""
  color_identity : List String := []
  prices : List (String × String) := []
  qty : Int := 0
  addedAt : Int := 0
deriving DecidableEq

/-- One deck membership entry: `{ collectionId, qty }`. -/
structure DeckEntry where
  collectionId : String := ""
  qty : Int := 0
deriving DecidableEq

structure Deck where
  id : String := ""
  name : String := ""
  format : String := ""
  commander : String := ""
  cards : List DeckEntry := []
deriving DecidableEq

/-- Looks up a field of a JSON object (JS property access). -/
def jsonField (fields : List (String × Json)) (key : String) : Option Json :=
  (fields.find? (fun p => p.1 = key)).map (fun p => p.2)

def jsonAsString : Json → String
  | .str s => s
  | _ => ""

def jsonAsNum : Json → Int
  | .num n => n
  | _ => 0

def strField (fields : List (String × Json)) (key : String) : String :=
  match jsonField fields key with
  | some j => jsonAsString j
  | none => ""

def numField (fields : List (String × Json)) (key : String) : Int :=
  match jsonField fields key with
  | some j => jsonAsNum j
  | none => 0

def strListField (fields : List (String × Json)) (key : String) : List String :=
  match jsonField fields key with
  | some (.arr js) => js.map jsonAsString
  | _ => []

def strPairsField (fields : List (String × Json)) (key : String) : List (String × String) :=
  match jsonField fields key with
  | some (.obj fs) => fs.map (fun p => (p.1, jsonAsString p.2))
  | _ => []

/-- The JSON document `JSON.stringify(card)` serializes (full card blob). -/
def cardToJson (c : Card) : Json :=
  .obj [("id", .str c.id), ("name", .str c.name), ("set_name", .str c.set_name),
        ("set", .str c.set), ("collector_number", .str c.collector_number),
        ("type_line", .str c.type_line), ("oracle_text", .str c.oracle_text),
        ("color_identity", .arr (c.color_identity.map .str)),
        ("prices", .obj (c.prices.map (fun p => (p.1, .str p.2)))),
        ("qty", .num c.qty), ("addedAt", .num c.addedAt)]

/-- Reading a parsed card blob back into a card (JS dynamic field access;
missing or mistyped fields degrade to defaults, as `undefined` would). -/
def cardOfJson : Json → Card
  | .obj fs =>
    { id := strField fs "id", name := strField fs "name",
      set_name := strField fs "set_name", set := strField fs "set",
      collector_number := strField fs "collector_number",
      type_line := strField fs "type_line", oracle_text := strField fs "oracle_text",
      color_identity := strListField fs "color_identity",
      prices := strPairsField fs "prices",
      qty := numField fs "qty", addedAt := numField fs "addedAt" }
  | _ => {}

def entryToJson (e : DeckEntry) : Json :=
  .obj [("collectionId", .str e.collectionId), ("qty", .num e.qty)]

def entryOfJson : Json → DeckEntry
  | .obj fs => { collectionId := strField fs "collectionId", qty := numField fs "qty" }
  | _ => {}

def entriesToJson (l : List DeckEntry) : Json := .arr (l.map entryToJson)

def entriesOfJson : Json → List DeckEntry
  | .arr js => js.map entryOfJson
  | _ => []

/-- `cardToRow`: Collection sheet columns
id | name | set_name | set | collector_number | qty | prices_json | card_json. -/
def cardToRow (card : Card) : List Cell :=
  [Cell.raw card.id, Cell.raw card.name, Cell.raw card.set_name, Cell.raw card.set,
   Cell.raw card.collector_number,
   Cell.raw (jsIntToString (jsOr card.qty 1)),
   Cell.json (.obj (card.prices.map (fun p => (p.1, .str p.2)))),
   Cell.json (cardToJson card)]

/-- The text content of a cell, as JS would coerce it for `parseInt`
(for serialized documents: some rendering of the document; the codec only
ever applies `parseIntJS` to plain string cells). -/
def cellText : Cell → String
  | .raw s => s
  | .json (.str s) => "\"" ++ escapeJson s ++ "\""
  | .json (.num n) => jsIntToString n
  | .json (.bool b) => if b then "true" else "false"
  | .json .jnull => "null"
  | .json (.arr _) => "\x5b...\x5d"
  | .json (.obj _) => "\x7b...\x7d"

/-- A missing cell (`row[i]` past the end) behaves as the empty string for
the codec: falsy, text coerces like `undefined` does under `|| dflt`. -/
def rowCell (row : List Cell) (i : Nat) : Cell := row.getD i (Cell.raw "")

/-- `rowToCard(row)`: parse the full blob from column 7 (missing/empty cell
is treated as `{}`), overlay the quantity from column 5; `null` when the
blob fails to parse. -/
def rowToCard (row : List Cell) : Option Card :=
  match jsParse (cellOr (rowCell row 7) (Cell.json (.obj []))) with
  | none => none
  | some full => some { cardOfJson full with qty := parseIntOr1 (cellText (rowCell row 5)) }

/-- `deckToRow(deck, collection)`: Decks sheet columns
id | name | format | commander (name) | cards_json.  The commander is
stored by card *name*, looked up in the live collection. -/
def deckToRow (deck : Deck) (collection : List Card) : List Cell :=
  let commanderName :=
    if deck.commander = "" then ""
    else
      match collection.find? (fun c => c.id = deck.commander) with
      | some c => c.name
      | none => ""
  [Cell.raw deck.id, Cell.raw deck.name, Cell.raw deck.format,
   Cell.raw commanderName, Cell.json (entriesToJson deck.cards)]

/-- `rowToDeck(row, collection)`: resolve the commander name back to an id
by name lookup; parse the cards JSON from column 4 (missing/empty cell is
treated as `[]`); the row decodes to `null` when that parse fails. -/
def rowToDeck (row : List Cell) (collection : List Card) : Option Deck :=
  let commanderName := cellText (rowCell row 3)
  let commanderId :=
    if commanderName = "" then ""
    else
      match collection.find? (fun c => c.name = commanderName) with
      | some c => c.id
      | none => ""
  match jsParse (cellOr (rowCell row 4) (Cell.json (.arr []))) with
  | none => none
  | some cardsJson =>
    some { id := cellText (rowCell row 0), name := cellText (rowCell row 1),
           format := (match cellText (rowCell row 2) with | "" => "Standard" | f => f),
           commander := commanderId, cards := entriesOfJson cardsJson }

/-- The sync controller's state: the authoritative in-memory model plus the
sync status machine (status values: idle, loading, saving, error,
unconfigured) and its message. -/
structure AppState where
  collection : List Card := []
  decks : List Deck := []
  syncStatus : String := "idle"
  syncMsg : String := ""
deriving DecidableEq

/-- `loadFromSheets`: the two ranges are fetched in parallel through
`Promise.all`, whose outcome is the `fetched` argument (`error` when either
fetch threw, carrying that failure's message).  On success both decoded
tables replace the in-memory state wholesale (unparseable rows dropped by
`filter(Boolean)`); on failure only the status machine changes. -/
def loadFromSheets (st : AppState)
    (fetched : Except String (List (List Cell) × List (List Cell))) : AppState :=
  match fetched with
  | .error e => { st with syncStatus := "error", syncMsg := "Load failed: " ++ e }
  | .ok (collRows, deckRows) =>
    let cards := collRows.filterMap rowToCard
    let dks := deckRows.filterMap (fun row => rowToDeck row cards)
    { st with collection := cards, decks := dks, syncStatus := "idle",
              syncMsg := "Loaded " ++ natToString cards.length ++ " cards" }

/-- `addToCollection(card)`: increment the quantity of an existing entry
with the same id (`(c.qty || 1) + 1`), else append a fresh entry with
quantity 1 and the current timestamp. -/
def addToCollection (card : Card) (now : Int) (prev : List Card) : List Card :=
  if (prev.find? (fun c => c.id = card.id)).isSome then
    prev.map (fun c => if c.id = card.id then { c with qty := jsOr c.qty 1 + 1 } else c)
  else prev ++ [{ card with qty := 1, addedAt := now }]

/-- `removeFromCollection(cardId)`: drop the collection entry and cascade
the removal of every deck entry referencing it. -/
def removeFromCollection (cardId : String) (collection : List Card) (decks : List Deck) :
    List Card × List Deck :=
  (collection.filter (fun c => c.id ≠ cardId),
   decks.map (fun d => { d with cards := d.cards.filter (fun c => c.collectionId ≠ cardId) }))

/-- The deck's member cards resolved against the collection
(`deck.cards.map(c => ({...collection.find(...), ...})).filter(c => c.id)`):
entries whose card is absent, or resolves to a card with an empty (falsy)
id, are dropped. -/
def deckCardsResolved (deck : Deck) (collection : List Card) : List Card :=
  deck.cards.filterMap (fun e =>
    match collection.find? (fun col => col.id = e.collectionId) with
    | some c => if c.id = "" then none else some c
    | none => none)

/-- JS `Set.prototype.add` on an insertion-ordered list model of a set. -/
def setAdd (s : List String) (x : String) : List String :=
  if x ∈ s then s else s ++ [x]

def setAddAll (s : List String) (xs : List String) : List String :=
  xs.foldl setAdd s

/-- Deck color identity (DeckEditor): a Commander-format deck with a
resolvable commander uses only the commander's color identity; otherwise
the union of the resolved member cards' color identities. -/
def deckColorIdentity (deck : Deck) (collection : List Card) : List String :=
  let commanderCard :=
    if deck.commander = "" then none
    else collection.find? (fun c => c.id = deck.commander)
  if deck.format = "Commander" then
    match commanderCard with
    | some cc => setAddAll [] cc.color_identity
    | none => (deckCardsResolved deck collection).foldl (fun s c => setAddAll s c.color_identity) []
  else (deckCardsResolved deck collection).foldl (fun s c => setAddAll s c.color_identity) []

/-- A combo variant as returned by the combo database: its identifier, the
names of the cards it uses, and the popularity metric. -/
structure ComboVariant where
  id : String := ""
  uses : List String := []
  popularity : Int := 0
deriving DecidableEq

/-- A scored combo variant (`{...v, _owned, _total}`).  `owned` counts uses
present in the deck, so `owned ≤ total` always holds for values built by
`scoreVariant`; the bound is carried so that the comparator is a total
preorder on the whole type. -/
structure ScoredVariant where
  id : String
  uses : List String
  popularity : Int
  owned : Nat
  total : Nat
  owned_le_total : owned ≤ total

/-- Scores one variant against the set of (lowercased) deck card names. -/
def scoreVariant (deckNames : List String) (v : ComboVariant) : ScoredVariant :=
  let comboNames := v.uses.map jsStrToLower
  { id := v.id, uses := v.uses, popularity := v.popularity,
    owned := (comboNames.filter (fun n => n ∈ deckNames)).length,
    total := comboNames.length,
    owned_le_total := List.length_filter_le _ _ }

/-- The sort comparator
`b._owned - a._owned || (b._owned/b._total - a._owned/a._total) || b.popularity - a.popularity`.
The ratio difference is compared by cross-multiplication (totals are
nonnegative, so the sign is preserved); when either total is 0 the JS ratio
difference is NaN, which is falsy, and since `owned ≤ total` forces both
cross-products to 0 in that case, the fall-through to popularity agrees. -/
def comboCmp (a b : ScoredVariant) : Int :=
  if b.owned ≠ a.owned then (b.owned : Int) - (a.owned : Int)
  else if a.total ≠ 0 ∧ b.total ≠ 0 ∧ b.owned * a.total ≠ a.owned * b.total then
    (b.owned * a.total : Int) - (a.owned * b.total : Int)
  else b.popularity - a.popularity

/-- The descending lexicographic order the specification describes:
owned count first, then coverage ratio (as an exact rational, compared by
cross-multiplication), then popularity. -/
def comboDescLex (a b : ScoredVariant) : Prop :=
  b.owned < a.owned ∨
    (a.owned = b.owned ∧
      (b.owned * a.total < a.owned * b.total ∨
        (b.owned * a.total = a.owned * b.total ∧ b.popularity ≤ a.popularity)))

instance : DecidableRel comboDescLex := by
  intro a b
  unfold comboDescLex
  infer_instance

/-- The scoring-and-sort pipeline of `findCombos`.  The source uses the
host's stable `Array.prototype.sort`; a stable sort consistent with a total
preorder is extensionally unique, so it is modelled by insertion sort. -/
def findCombosSort (deckNames : List String) (all : List ComboVariant) : List ScoredVariant :=
  List.insertionSort (fun a b => comboCmp a b ≤ 0) (all.map (scoreVariant deckNames))

/-- The debounce interval of `triggerSave` (milliseconds). -/
def SAVE_DEBOUNCE_MS : Nat := 1500

/-- The debounce bookkeeping around the mutating operations: the current
model state (read through a ref at fire time), the pending timer deadline
(`saveTimeout`), and the saves issued so far (time, state snapshot). -/
structure DebounceState (σ : Type) where
  cur : σ
  pending : Option Nat
  fired : List (Nat × σ)

/-- Fires the pending save timer if its deadline has passed by time `t`:
the save call uses the state held by the refs at fire time. -/
def fireDue {σ : Type} (d : DebounceState σ) (t : Nat) : DebounceState σ :=
  match d.pending with
  | some tf => if tf ≤ t then { d with pending := none, fired := d.fired ++ [(tf, d.cur)] } else d
  | none => d

/-- `triggerSave` at time `t`: `clearTimeout` of any pending timer, then
`setTimeout(..., 1500)`. -/
def triggerSave {σ : Type} (d : DebounceState σ) (t : Nat) : DebounceState σ :=
  { d with pending := some (t + SAVE_DEBOUNCE_MS) }

/-- One mutating operation at time `t` producing model state `s`: any
already-due timer fires first (real-time order), then the state is
replaced and `triggerSave` reschedules. -/
def mutateAndTrigger {σ : Type} (d : DebounceState σ) (t : Nat) (s : σ) : DebounceState σ :=
  triggerSave { fireDue d t with cur := s } t

/-- Runs a time-ordered list of mutations from a quiescent start. -/
def runMutations {σ : Type} (s0 : σ) (events : List (Nat × σ)) : DebounceState σ :=
  events.foldl (fun d e => mutateAndTrigger d e.1 e.2) ⟨s0, none, []⟩

/-- All saves eventually issued: those already fired plus the pending
timer once the quiet interval elapses with no further mutation. -/
def flushAll {σ : Type} (d : DebounceState σ) : List (Nat × σ) :=
  match d.pending with
  | some tf => d.fired ++ [(tf, d.cur)]
  | none => d.fired

/-- The complete outbound-save trace for a burst of mutations. -/
def debounceSaves {σ : Type} (s0 : σ) (events : List (Nat × σ)) : List (Nat × σ) :=
  flushAll (runMutations s0 events)

/-! Concrete sample data used to instantiate theorems. -/

def sampleForestA : Card := { id := "a", name := "Forest", qty := 1 }

def sampleForestB : Card := { id := "b", name := "Forest", qty := 1 }

def sampleCommanderBG : Card :=
  { id := "cmd1", name := "Karador", color_identity := ["B", "G"],
    type_line := "Legendary Creature — Centaur Spirit", qty := 1 }

def sampleMemberR : Card :=
  { id := "r1", name := "Lightning Bolt", color_identity := ["R"],
    type_line := "Instant", qty := 1 }

def sampleCardW : Card := { id := "w1", name := "Wish", type_line := "Sorcery" }

def sampleDupDeck : Deck :=
  { id := "d1", name := "Dup", format := "Commander", commander := "b", cards := [] }

def sampleBGDeck : Deck :=
  { id := "d2", name := "Graveyard Value", format := "Commander", commander := "cmd1",
    cards := [{ collectionId := "cmd1", qty := 1 }, { collectionId := "r1", qty := 1 }] }

def sampleBGDeckStd : Deck :=
  { id := "d2", name := "Graveyard Value", format := "Standard", commander := "cmd1",
    cards := [{ collectionId := "cmd1", qty := 1 }, { collectionId := "r1", qty := 1 }] }

def sampleStdDeck : Deck :=
  { id := "d3", name := "Aggro", format := "Standard", commander := "",
    cards := [{ collectionId := "a", qty := 2 }] }

def comboAB : ComboVariant := { id := "combo-ab", uses := ["A", "B"], popularity := 0 }

def comboABC : ComboVariant := { id := "combo-abc", uses := ["A", "B", "C"], popularity := 100 }

/-! General-purpose lemmas about the embedding. -/

theorem cellOr_raw_of_ne {s : String} (h : s ≠ "") (d : Cell) : cellOr (.raw s) d = .raw s := by
  unfold cellOr
  split
  · next heq => injection heq with h2; exact absurd h2 h
  · rfl

theorem cellOr_json (j : Json) (d : Cell) : cellOr (.json j) d = .json j := rfl

theorem filter_fusion (l : List String) :
    (l.filter (fun w => w ≠ "")).filter (fun w => w ∉ SUPERTYPES)
      = l.filter (fun w => ¬ (w = "" ∨ w ∈ SUPERTYPES)) := by
  rw [List.filter_filter]
  apply List.filter_congr
  intro w _
  by_cases h1 : w = "" <;> by_cases h2 : w ∈ SUPERTYPES <;> simp [h1, h2]

/-- Claim C4 counterexample: the claim asserts
getTypePermutation("Basic Land — Island") = "Other", but the code strips
only the supertype "Basic" and returns the remaining main type "Land". -/
theorem getTypePermutation_basicLand_counterexample :
    getTypePermutation "Basic Land — Island" ≠ "Other" := by decide

/-- Claim C4 (amended): for every type-line string, getTypePermutation
strips the fixed supertype set and everything after the subtype separator,
joins the remaining words in original order, and maps an empty result to
"Other"; getTypePermutation("Legendary Artifact Creature — Equipment") =
"Artifact Creature" and getTypePermutation("Basic Land — Island") = "Land"
(not "Other"); getTypePermutation("Land") = "Land". -/
theorem getTypePermutation_amended :
    (∀ s : String, getTypePermutation s = typePermutationSpec s)
    ∧ getTypePermutation "Legendary Artifact Creature — Equipment" = "Artifact Creature"
    ∧ getTypePermutation "Basic Land — Island" = "Land"
    ∧ getTypePermutation "Land" = "Land" := by
  refine ⟨fun s => ?_, by decide, by decide, by decide⟩
  unfold getTypePermutation typePermutationSpec
  simp only [filter_fusion]

/-- Claim C9: if load() fails (either fetch throws), the in-memory
collection and deck sets are unchanged and the sync status becomes error
with the failure message; state is replaced wholesale (decoded collection,
then decks decoded against it) only when both range reads succeed. -/
theorem loadFromSheets_spec :
    (∀ (st : AppState) (e : String),
        (loadFromSheets st (.error e)).collection = st.collection
      ∧ (loadFromSheets st (.error e)).decks = st.decks
      ∧ (loadFromSheets st (.error e)).syncStatus = "error"
      ∧ (loadFromSheets st (.error e)).syncMsg = "Load failed: " ++ e)
    ∧ (∀ (st : AppState) (collRows deckRows : List (List Cell)),
        (loadFromSheets st (.ok (collRows, deckRows))).collection
            = collRows.filterMap rowToCard
      ∧ (loadFromSheets st (.ok (collRows, deckRows))).decks
            = deckRows.filterMap (fun r => rowToDeck r (collRows.filterMap rowToCard))
      ∧ (loadFromSheets st (.ok (collRows, deckRows))).syncStatus = "idle") := by
  exact ⟨fun st e => ⟨rfl, rfl, rfl, rfl⟩, fun st collRows deckRows => ⟨rfl, rfl, rfl⟩⟩

/-- Claim C5 counterexample: a deck row whose cards cell holds a non-empty
string that is not valid JSON decodes to null (the row is dropped), not to
a deck with an empty card list as the claim states. -/
theorem rowToDeck_malformed_counterexample :
    rowToDeck
      [Cell.raw "d9", Cell.raw "Broken", Cell.raw "Standard", Cell.raw "", Cell.raw "not json"]
      [] = none := by decide

/-- Claim C5 (amended): a deck row whose cards cell (fifth cell) is missing
or empty decodes to a deck with an empty card list (the cell defaults to
"[]"), but a non-empty cards cell that fails to parse makes the whole row
decode to null (the row is dropped); decode also returns null in no other
case. -/
theorem rowToDeck_cards_amended (row : List Cell) (collection : List Card) :
    (∀ s : String, s ≠ "" → rowCell row 4 = Cell.raw s → rowToDeck row collection = none)
    ∧ (rowCell row 4 = Cell.raw "" →
        ∃ d, rowToDeck row collection = some d ∧ d.cards = [])
    ∧ (rowToDeck row collection = none →
        ∃ s : String, s ≠ "" ∧ rowCell row 4 = Cell.raw s) := by
  refine ⟨?_, ?_, ?_⟩
  · intro s hs h4
    unfold rowToDeck
    rw [h4, cellOr_raw_of_ne hs]
    rfl
  · intro h4
    unfold rowToDeck
    rw [h4]
    exact ⟨_, rfl, rfl⟩
  · intro hnone
    rcases h4 : rowCell row 4 with s | j
    · by_cases hs : s = ""
      · subst hs
        unfold rowToDeck at hnone
        rw [h4] at hnone
        simp [cellOr, jsParse] at hnone
      · exact ⟨s, hs, rfl⟩
    · unfold rowToDeck at hnone
      rw [h4, cellOr_json] at hnone
      simp [jsParse] at hnone

/-- Claim C5 amended witness at concrete rows. -/
theorem rowToDeck_cards_amended_witness :
    (rowToDeck [Cell.raw "d9", Cell.raw "Broken", Cell.raw "Standard", Cell.raw "",
        Cell.raw "oops"] [] = none)
    ∧ ∃ d, rowToDeck [Cell.raw "d8", Cell.raw "Empty", Cell.raw "Standard", Cell.raw ""] []
        = some d ∧ d.cards = [] := by
  constructor
  · exact (rowToDeck_cards_amended
      [Cell.raw "d9", Cell.raw "Broken", Cell.raw "Standard", Cell.raw "", Cell.raw "oops"]
      []).1 "oops" (by decide) rfl
  · exact (rowToDeck_cards_amended
      [Cell.raw "d8", Cell.raw "Empty", Cell.raw "Standard", Cell.raw ""] []).2.1 rfl

/-- Claim C10 counterexample: with the payload cell absent and the quantity
cell "0", the cell parses (to 0) yet the decoded quantity is 1, because the
code's `parseInt(row[5]) || 1` also treats a parsed 0 as missing; so the
claim's "quantity parsed from the sixth cell, defaulting to 1 only when
unparseable or missing" fails. -/
theorem rowToCard_zero_counterexample :
    ((rowToCard [Cell.raw "idx", Cell.raw "Name", Cell.raw "", Cell.raw "", Cell.raw "",
        Cell.raw "0"]).map (fun c => c.qty) = some 1)
    ∧ parseIntJS "0" = some 0 ∧ (1 : Int) ≠ 0 := by decide

/-- Claim C10 (amended): when the full-card-payload cell (eighth cell) is
absent or empty it is treated as an empty JSON object and decode returns a
non-null card whose quantity comes from the sixth cell, defaulting to 1
when that cell is unparseable, missing, or parses to 0; decode returns null
exactly when the payload cell is a non-empty string that fails to parse. -/
theorem rowToCard_payload_amended (row : List Cell) :
    (rowCell row 7 = Cell.raw "" →
      ∃ c, rowToCard row = some c
        ∧ (∀ n : Int, parseIntJS (cellText (rowCell row 5)) = some n → n ≠ 0 → c.qty = n)
        ∧ (parseIntJS (cellText (rowCell row 5)) = none → c.qty = 1)
        ∧ (parseIntJS (cellText (rowCell row 5)) = some 0 → c.qty = 1))
    ∧ (∀ s : String, s ≠ "" → rowCell row 7 = Cell.raw s → rowToCard row = none)
    ∧ (rowToCard row = none → ∃ s : String, s ≠ "" ∧ rowCell row 7 = Cell.raw s) := by
  refine ⟨?_, ?_, ?_⟩
  · intro h7
    unfold rowToCard
    rw [h7]
    refine ⟨_, rfl, ?_, ?_, ?_⟩
    · intro n hn hne
      simp [parseIntOr1, hn, hne]
    · intro hn
      simp [parseIntOr1, hn]
    · intro hn
      simp [parseIntOr1, hn]
  · intro s hs h7
    unfold rowToCard
    rw [h7, cellOr_raw_of_ne hs]
    rfl
  · intro hnone
    rcases h7 : rowCell row 7 with s | j
    · by_cases hs : s = ""
      · subst hs
        unfold rowToCard at hnone
        rw [h7] at hnone
        simp [cellOr, jsParse] at hnone
      · exact ⟨s, hs, rfl⟩
    · unfold rowToCard at hnone
      rw [h7, cellOr_json] at hnone
      simp [jsParse] at hnone

/-- Claim C10 amended witness at concrete rows. -/
theorem rowToCard_payload_amended_witness :
    (∃ c, rowToCard [Cell.raw "idx", Cell.raw "Name", Cell.raw "", Cell.raw "", Cell.raw "",
        Cell.raw "7"] = some c
      ∧ (∀ n : Int, parseIntJS (cellText (rowCell [Cell.raw "idx", Cell.raw "Name",
            Cell.raw "", Cell.raw "", Cell.raw "", Cell.raw "7"] 5)) = some n → n ≠ 0
            → c.qty = n)
      ∧ (parseIntJS (cellText (rowCell [Cell.raw "idx", Cell.raw "Name", Cell.raw "",
            Cell.raw "", Cell.raw "", Cell.raw "7"] 5)) = none → c.qty = 1)
      ∧ (parseIntJS (cellText (rowCell [Cell.raw "idx", Cell.raw "Name", Cell.raw "",
            Cell.raw "", Cell.raw "", Cell.raw "7"] 5)) = some 0 → c.qty = 1))
    ∧ rowToCard [Cell.raw "idx", Cell.raw "Name", Cell.raw "", Cell.raw "", Cell.raw "",
        Cell.raw "1", Cell.raw "", Cell.raw "bad json"] = none := by
  constructor
  · exact (rowToCard_payload_amended [Cell.raw "idx", Cell.raw "Name", Cell.raw "",
      Cell.raw "", Cell.raw "", Cell.raw "7"]).1 rfl
  · exact (rowToCard_payload_amended [Cell.raw "idx", Cell.raw "Name", Cell.raw "",
      Cell.raw "", Cell.raw "", Cell.raw "1", Cell.raw "", Cell.raw "bad json"]).2.1
      "bad json" (by decide) rfl

/-! Decimal rendering/parsing round trip. -/

theorem digitChar_facts (d : Nat) (h : d < 10) :
    (digitChar d).isDigit = true ∧ (digitChar d).isWhitespace = false
    ∧ digitChar d ≠ '-' ∧ digitChar d ≠ '+' ∧ (digitChar d).toNat - 48 = d := by
  interval_cases d <;> exact ⟨by decide, by decide, by decide, by decide, by decide⟩

theorem natDigitsLEAux_mem (fuel : Nat) :
    ∀ n c, c ∈ natDigitsLEAux fuel n → ∃ d, d < 10 ∧ c = digitChar d := by
  induction fuel with
  | zero => intro n c hc; simp [natDigitsLEAux] at hc
  | succ fuel ih =>
    intro n c hc
    unfold natDigitsLEAux at hc
    by_cases hn : n = 0
    · simp [hn] at hc
    · simp only [if_neg hn, List.mem_cons] at hc
      rcases hc with hc | hc
      · exact ⟨n % 10, Nat.mod_lt _ (by omega), hc⟩
      · exact ih _ _ hc

theorem natOfDigits_append (xs : List Char) (c : Char) :
    natOfDigits (xs ++ [c]) = 10 * natOfDigits xs + (c.toNat - 48) := by
  simp [natOfDigits, List.foldl_append]

theorem natOfDigits_rev (fuel : Nat) :
    ∀ n, n ≤ fuel → natOfDigits (natDigitsLEAux fuel n).reverse = n := by
  induction fuel with
  | zero =>
    intro n hn
    interval_cases n
    simp [natDigitsLEAux, natOfDigits]
  | succ fuel ih =>
    intro n hn
    by_cases hz : n = 0
    · subst hz; simp [natDigitsLEAux, natOfDigits]
    · have hdiv : n / 10 ≤ fuel := by
        have : n / 10 < n := Nat.div_lt_self (by omega) (by omega)
        omega
      unfold natDigitsLEAux
      rw [if_neg hz, List.reverse_cons, natOfDigits_append, ih _ hdiv]
      have h10 : n % 10 < 10 := Nat.mod_lt _ (by omega)
      have hval := (digitChar_facts (n % 10) h10).2.2.2.2
      omega

theorem natDigitsLE_digits {n : Nat} {c : Char} (hc : c ∈ natDigitsLE n) :
    ∃ d, d < 10 ∧ c = digitChar d :=
  natDigitsLEAux_mem n n c hc

theorem natDigitsLE_ne_nil {n : Nat} (h : n ≠ 0) : natDigitsLE n ≠ [] := by
  unfold natDigitsLE
  cases n with
  | zero => exact absurd rfl h
  | succ m => simp [natDigitsLEAux]

theorem digitsHead_of_digits (ds : List Char) (hne : ds ≠ [])
    (hd : ∀ c ∈ ds, ∃ d, d < 10 ∧ c = digitChar d) :
    digitsHead ds = some (natOfDigits ds) := by
  unfold digitsHead
  have htw : ds.takeWhile Char.isDigit = ds := by
    rw [List.takeWhile_eq_self_iff]
    intro c hc
    obtain ⟨d, hd10, rfl⟩ := hd c hc
    exact (digitChar_facts d hd10).1
  simp only [htw]
  rw [if_neg]
  simp [hne]

theorem parseIntJS_of_digits (ds : List Char) (hne : ds ≠ [])
    (hd : ∀ c ∈ ds, ∃ d, d < 10 ∧ c = digitChar d) :
    parseIntJS (String.mk ds) = some ((natOfDigits ds : Nat) : Int) := by
  unfold parseIntJS
  have htl : (String.mk ds).toList = ds := rfl
  rw [htl]
  have hdw : ds.dropWhile Char.isWhitespace = ds := by
    cases ds with
    | nil => rfl
    | cons c tl =>
      obtain ⟨d, hd10, rfl⟩ := hd c (by simp)
      rw [List.dropWhile_cons, if_neg (by simp [(digitChar_facts d hd10).2.1])]
  rw [hdw]
  cases ds with
  | nil => exact absurd rfl hne
  | cons c tl =>
    obtain ⟨d, hd10, rfl⟩ := hd c (by simp)
    obtain ⟨_, _, hminus, hplus, _⟩ := digitChar_facts d hd10
    split
    · next heq => exact absurd (List.cons.inj heq).1 hminus
    · next heq => exact absurd (List.cons.inj heq).1 hplus
    · rw [digitsHead_of_digits _ hne hd]
      rfl

theorem parseIntJS_jsIntToString (q : Int) : parseIntJS (jsIntToString q) = some q := by
  by_cases hq0 : q = 0
  · subst hq0; decide
  have hm : q.natAbs ≠ 0 := by omega
  have hdig : ∀ c ∈ (natDigitsLE q.natAbs).reverse, ∃ d, d < 10 ∧ c = digitChar d :=
    fun c hc => natDigitsLE_digits (List.mem_reverse.mp hc)
  have hne : (natDigitsLE q.natAbs).reverse ≠ [] := by
    simp [List.reverse_eq_nil_iff, natDigitsLE_ne_nil hm]
  have hval : natOfDigits (natDigitsLE q.natAbs).reverse = q.natAbs :=
    natOfDigits_rev q.natAbs q.natAbs le_rfl
  rcases lt_or_ge q 0 with hq | hq
  · unfold jsIntToString natToString
    rw [if_pos hq, if_neg hm]
    unfold parseIntJS
    have htl : ("-" ++ String.mk (natDigitsLE q.natAbs).reverse).toList
        = '-' :: (natDigitsLE q.natAbs).reverse := by
      show ("-" ++ String.mk (natDigitsLE q.natAbs).reverse).data = _
      rw [String.data_append]
      rfl
    rw [htl, List.dropWhile_cons, if_neg (by decide)]
    show (digitsHead (natDigitsLE q.natAbs).reverse).map (fun (n : Nat) => -(n : Int)) = some q
    rw [digitsHead_of_digits _ hne hdig, hval]
    simp only [Option.map_some']
    congr 1
    omega
  · unfold jsIntToString natToString
    rw [if_neg (by omega), if_neg hm]
    rw [parseIntJS_of_digits _ hne hdig, hval]
    congr 1
    exact Int.natAbs_of_nonneg hq

/-! Round trips of the JSON payload embeddings. -/

theorem map_str_asString (l : List String) : (l.map Json.str).map jsonAsString = l := by
  induction l with
  | nil => rfl
  | cons h t ih => simp [jsonAsString, ih]

theorem map_pair_str (l : List (String × String)) :
    (l.map (fun p => (p.1, Json.str p.2))).map (fun p => (p.1, jsonAsString p.2)) = l := by
  induction l with
  | nil => rfl
  | cons h t ih =>
    simp only [List.map_cons, ih]
    rfl

theorem cardOfJson_cardToJson (c : Card) : cardOfJson (cardToJson c) = c := by
  cases c with
  | mk i n sn st cn tl ot ci pr q aa =>
    show Card.mk i n sn st cn tl ot ((ci.map Json.str).map jsonAsString)
        ((pr.map (fun p => (p.1, Json.str p.2))).map (fun p => (p.1, jsonAsString p.2))) q aa
      = Card.mk i n sn st cn tl ot ci pr q aa
    rw [map_str_asString, map_pair_str]

theorem entryOfJson_entryToJson (e : DeckEntry) : entryOfJson (entryToJson e) = e := by
  cases e
  rfl

theorem entriesOfJson_entriesToJson (l : List DeckEntry) :
    entriesOfJson (entriesToJson l) = l := by
  show (l.map entryToJson).map entryOfJson = l
  rw [List.map_map, show entryOfJson ∘ entryToJson = id from funext entryOfJson_entryToJson,
    List.map_id]

/-! Claim C3: codec round trips. -/

/-- Claim C3 counterexample: with two same-named printings in the
collection snapshot ("Forest" with ids "a" and "b"), a deck whose commander
is "b" encodes the commander by name and decodes back to the *first*
entry named "Forest", id "a" — the commander reference is not reproduced
even though the snapshot is unchanged. -/
theorem roundTrip_commander_counterexample :
    ((rowToDeck (deckToRow sampleDupDeck [sampleForestA, sampleForestB])
        [sampleForestA, sampleForestB]).map (fun d => d.commander) = some "a")
    ∧ sampleDupDeck.commander = "b" ∧ ("a" : String) ≠ "b" := by decide

/-- Claim C3 (amended): decoding the encoded row of any CollectionCard
with nonzero quantity reproduces the card exactly (hence identifier, name
and quantity); decoding an encoded Deck against the same unchanged
snapshot reproduces the deck exactly — identifier, name, format (nonempty),
commander reference and card list — provided the commander reference is
empty, or resolves in the snapshot to a card with a nonempty name such that
the first snapshot entry bearing that name is that same card (in
particular whenever no two snapshot entries share the commander's name).
With duplicate names the commander can decode to a different printing's
identifier (see the counterexample). -/
theorem roundTrip_amended :
    (∀ card : Card, card.qty ≠ 0 → rowToCard (cardToRow card) = some card)
    ∧ (∀ (deck : Deck) (collection : List Card) (cc : Card),
        deck.format ≠ "" → deck.commander ≠ "" →
        collection.find? (fun c => c.id = deck.commander) = some cc →
        cc.name ≠ "" →
        collection.find? (fun c => c.name = cc.name) = some cc →
        rowToDeck (deckToRow deck collection) collection = some deck)
    ∧ (∀ (deck : Deck) (collection : List Card),
        deck.format ≠ "" → deck.commander = "" →
        rowToDeck (deckToRow deck collection) collection = some deck) := by
  have hfmt_match : ∀ f : String, f ≠ "" →
      (match f with | "" => "Standard" | f => f) = f := by
    intro f hf
    split <;> simp_all
  refine ⟨?_, ?_, ?_⟩
  · intro card h
    show some { cardOfJson (cardToJson card) with
      qty := parseIntOr1 (jsIntToString (jsOr card.qty 1)) } = some card
    have hor : jsOr card.qty 1 = card.qty := by simp [jsOr, h]
    have hq : parseIntOr1 (jsIntToString card.qty) = card.qty := by
      unfold parseIntOr1
      rw [parseIntJS_jsIntToString]
      simp [h]
    rw [hor, hq, cardOfJson_cardToJson]
  · intro deck collection cc hfmt hcne hfind hname hfindname
    have hccid : cc.id = deck.commander := by
      have h1 := List.find?_some hfind
      simpa using h1
    unfold deckToRow
    rw [if_neg hcne, hfind]
    show some (Deck.mk deck.id deck.name
        (match deck.format with | "" => "Standard" | f => f)
        (if cc.name = "" then ""
          else match collection.find? (fun c => c.name = cc.name) with
            | some c => c.id
            | none => "")
        (entriesOfJson (entriesToJson deck.cards))) = some deck
    rw [if_neg hname, hfindname, entriesOfJson_entriesToJson]
    dsimp only
    rw [hccid, hfmt_match deck.format hfmt]
  · intro deck collection hfmt hcemp
    unfold deckToRow
    rw [if_pos hcemp]
    show some (Deck.mk deck.id deck.name
        (match deck.format with | "" => "Standard" | f => f)
        "" (entriesOfJson (entriesToJson deck.cards))) = some deck
    rw [entriesOfJson_entriesToJson, hfmt_match deck.format hfmt, ← hcemp]

/-- Claim C3 amended witness at concrete data. -/
theorem roundTrip_amended_witness :
    rowToCard (cardToRow sampleForestA) = some sampleForestA
    ∧ rowToDeck (deckToRow sampleBGDeck [sampleCommanderBG, sampleMemberR])
        [sampleCommanderBG, sampleMemberR] = some sampleBGDeck
    ∧ rowToDeck (deckToRow sampleStdDeck [sampleForestA]) [sampleForestA]
        = some sampleStdDeck := by
  refine ⟨?_, ?_, ?_⟩
  · exact roundTrip_amended.1 sampleForestA (by decide)
  · exact roundTrip_amended.2.1 sampleBGDeck [sampleCommanderBG, sampleMemberR]
      sampleCommanderBG (by decide) (by decide) (by decide) (by decide) (by decide)
  · exact roundTrip_amended.2.2 sampleStdDeck [sampleForestA] (by decide) rfl

/-! Claim C1: addToCollection. -/

theorem addToCollection_step (card : Card) (now : Int) (l : List Card) (k : Int)
    (hk : k ≠ 0)
    (hcount : l.countP (fun c => decide (c.id = card.id)) = 1)
    (hqty : ∀ c ∈ l, c.id = card.id → c.qty = k) :
    (addToCollection card now l).countP (fun c => decide (c.id = card.id)) = 1
    ∧ ∀ c ∈ addToCollection card now l, c.id = card.id → c.qty = k + 1 := by
  have hsome : (l.find? (fun c => decide (c.id = card.id))).isSome := by
    rw [List.find?_isSome]
    have hpos : 0 < l.countP (fun c => decide (c.id = card.id)) := by omega
    rw [List.countP_pos_iff] at hpos
    exact hpos
  unfold addToCollection
  rw [if_pos hsome]
  constructor
  · rw [List.countP_map]
    rw [show l.countP ((fun c => decide (c.id = card.id)) ∘
        (fun c => if c.id = card.id then { c with qty := jsOr c.qty 1 + 1 } else c))
      = l.countP (fun c => decide (c.id = card.id)) from List.countP_congr ?_]
    · exact hcount
    · intro c _
      by_cases h : c.id = card.id <;> simp [h]
  · intro c hc hcid
    rw [List.mem_map] at hc
    obtain ⟨c0, hc0, rfl⟩ := hc
    by_cases h0 : c0.id = card.id
    · rw [if_pos h0]
      have hq0 : c0.qty = k := hqty c0 hc0 h0
      simp [jsOr, hq0, hk]
    · rw [if_neg h0] at hcid ⊢
      exact absurd hcid h0

theorem addToCollection_fresh_iter (card : Card) (now : Int) (prev : List Card)
    (hfresh : ∀ c ∈ prev, c.id ≠ card.id) :
    ∀ n : Nat, 1 ≤ n →
      ((addToCollection card now)^[n] prev).countP (fun c => decide (c.id = card.id)) = 1
      ∧ ∀ c ∈ (addToCollection card now)^[n] prev, c.id = card.id → c.qty = (n : Int) := by
  intro n
  induction n with
  | zero => omega
  | succ n ih =>
    intro _
    by_cases hn : 1 ≤ n
    · obtain ⟨hcount, hqty⟩ := ih hn
      rw [Function.iterate_succ_apply']
      have hstep := addToCollection_step card now ((addToCollection card now)^[n] prev)
        (n : Int) (by omega) hcount hqty
      refine ⟨hstep.1, ?_⟩
      intro c hc hcid
      have := hstep.2 c hc hcid
      push_cast
      omega
    · have hn0 : n = 0 := by omega
      subst hn0
      rw [Function.iterate_one]
      have hnone : prev.find? (fun c => decide (c.id = card.id)) = none := by
        rw [List.find?_eq_none]
        intro c hc
        simp [hfresh c hc]
      unfold addToCollection
      rw [hnone]
      simp only [Option.isSome_none, Bool.false_eq_true, if_false]
      constructor
      · rw [List.countP_append, List.countP_eq_zero.mpr (by intro c hc; simp [hfresh c hc])]
        simp [List.countP_cons]
      · intro c hc hcid
        rw [List.mem_append] at hc
        rcases hc with hc | hc
        · exact absurd hcid (hfresh c hc)
        · rw [List.mem_singleton] at hc
          subst hc
          rfl

/-- Claim C1: starting from a collection not containing the printing
identifier, a sequence of n addCard calls (n ≥ 1) with that identifier
leaves exactly one entry for it, with quantity n; and an addCard on an
already-present identifier (entry quantities satisfying the ≥ 1 data-model
invariant) increments that entry's quantity by 1, leaving the entry count,
the list length, and every other entry unchanged. -/
theorem addToCollection_spec :
    (∀ (card : Card) (now : Int) (prev : List Card) (n : Nat),
      (∀ c ∈ prev, c.id ≠ card.id) → 1 ≤ n →
      ((addToCollection card now)^[n] prev).countP (fun c => decide (c.id = card.id)) = 1
      ∧ ∀ c ∈ (addToCollection card now)^[n] prev, c.id = card.id → c.qty = (n : Int))
    ∧ (∀ (card : Card) (now : Int) (prev : List Card),
      (∃ c ∈ prev, c.id = card.id) →
      (∀ c ∈ prev, c.id = card.id → 1 ≤ c.qty) →
      (addToCollection card now prev).length = prev.length
      ∧ (addToCollection card now prev).countP (fun c => decide (c.id = card.id))
          = prev.countP (fun c => decide (c.id = card.id))
      ∧ ∀ (i : Nat) (h : i < prev.length)
          (h2 : i < (addToCollection card now prev).length),
          (addToCollection card now prev).get ⟨i, h2⟩
            = (if (prev.get ⟨i, h⟩).id = card.id
               then { (prev.get ⟨i, h⟩) with qty := (prev.get ⟨i, h⟩).qty + 1 }
               else prev.get ⟨i, h⟩)) := by
  constructor
  · intro card now prev n hfresh hn
    exact addToCollection_fresh_iter card now prev hfresh n hn
  · intro card now prev hpresent hq1
    have hsome : (prev.find? (fun c => decide (c.id = card.id))).isSome := by
      rw [List.find?_isSome]
      obtain ⟨c, hc, hcid⟩ := hpresent
      exact ⟨c, hc, by simp [hcid]⟩
    unfold addToCollection
    rw [if_pos hsome]
    refine ⟨List.length_map _ _, ?_, ?_⟩
    · rw [List.countP_map]
      apply List.countP_congr
      intro c _
      by_cases h : c.id = card.id <;> simp [h]
    · intro i h h2
      rw [List.get_eq_getElem, List.get_eq_getElem, List.getElem_map]
      by_cases hid : prev[i].id = card.id
      · rw [if_pos hid, if_pos hid]
        have : 1 ≤ prev[i].qty := hq1 prev[i] (List.getElem_mem _) hid
        have hjs : jsOr prev[i].qty 1 = prev[i].qty := by
          unfold jsOr
          rw [if_neg (by omega)]
        rw [hjs]
      · rw [if_neg hid, if_neg hid]

/-- Claim C1 witness: three adds of a fresh card yield one entry with
quantity 3; one add onto a present entry keeps the length. -/
theorem addToCollection_spec_witness :
    ((addToCollection sampleCardW 5)^[3] []).countP
        (fun c => decide (c.id = sampleCardW.id)) = 1
    ∧ ({ sampleCardW with qty := 3, addedAt := 5 } : Card).qty = 3
    ∧ (addToCollection sampleForestA 0 [sampleForestA]).length = 1 := by
  have h1 := addToCollection_spec.1 sampleCardW 5 [] 3 (by simp) (by omega)
  have h2 := addToCollection_spec.2 sampleForestA 0 [sampleForestA]
    ⟨sampleForestA, by simp, rfl⟩ (by decide)
  exact ⟨h1.1, h1.2 { sampleCardW with qty := 3, addedAt := 5 } (by decide) rfl, h2.1⟩

/-! Claim C2: removeFromCollection frame conditions. -/

/-- Claim C2: after removeCard(id), no collection entry and no deck entry
in any deck references id; every collection entry with a different
identifier survives unchanged (and nothing new appears); every deck is
kept in place with its id, name, format and commander unchanged, and its
entries with a different identifier kept (and no new ones). -/
theorem removeFromCollection_frame (collection : List Card) (decks : List Deck)
    (cid : String) :
    (∀ c ∈ (removeFromCollection cid collection decks).1, c.id ≠ cid)
    ∧ (∀ d ∈ (removeFromCollection cid collection decks).2,
        ∀ e ∈ d.cards, e.collectionId ≠ cid)
    ∧ (∀ c ∈ collection, c.id ≠ cid → c ∈ (removeFromCollection cid collection decks).1)
    ∧ (∀ c ∈ (removeFromCollection cid collection decks).1, c ∈ collection)
    ∧ (removeFromCollection cid collection decks).2.length = decks.length
    ∧ (∀ (i : Nat) (h : i < decks.length)
        (h2 : i < (removeFromCollection cid collection decks).2.length),
        ((removeFromCollection cid collection decks).2.get ⟨i, h2⟩).id
            = (decks.get ⟨i, h⟩).id
        ∧ ((removeFromCollection cid collection decks).2.get ⟨i, h2⟩).name
            = (decks.get ⟨i, h⟩).name
        ∧ ((removeFromCollection cid collection decks).2.get ⟨i, h2⟩).format
            = (decks.get ⟨i, h⟩).format
        ∧ ((removeFromCollection cid collection decks).2.get ⟨i, h2⟩).commander
            = (decks.get ⟨i, h⟩).commander
        ∧ (∀ e ∈ (decks.get ⟨i, h⟩).cards, e.collectionId ≠ cid →
            e ∈ ((removeFromCollection cid collection decks).2.get ⟨i, h2⟩).cards)
        ∧ (∀ e ∈ ((removeFromCollection cid collection decks).2.get ⟨i, h2⟩).cards,
            e ∈ (decks.get ⟨i, h⟩).cards)) := by
  unfold removeFromCollection
  refine ⟨?_, ?_, ?_, ?_, List.length_map _ _, ?_⟩
  · intro c hc
    rw [List.mem_filter] at hc
    simpa using hc.2
  · intro d hd e he
    rw [List.mem_map] at hd
    obtain ⟨d0, _, rfl⟩ := hd
    rw [List.mem_filter] at he
    simpa using he.2
  · intro c hc hne
    rw [List.mem_filter]
    exact ⟨hc, by simpa using hne⟩
  · intro c hc
    rw [List.mem_filter] at hc
    exact hc.1
  · intro i h h2
    rw [List.get_eq_getElem, List.get_eq_getElem, List.getElem_map]
    refine ⟨rfl, rfl, rfl, rfl, ?_, ?_⟩
    · intro e he hne
      rw [List.mem_filter]
      exact ⟨he, by simpa using hne⟩
    · intro e he
      rw [List.mem_filter] at he
      exact he.1

/-- Claim C2 witness at a concrete collection and deck set. -/
theorem removeFromCollection_frame_witness :
    sampleForestA ∈ (removeFromCollection "r1" [sampleForestA, sampleMemberR]
        [sampleBGDeck]).1
    ∧ ({ collectionId := "cmd1", qty := 1 } : DeckEntry).collectionId ≠ "r1"
    ∧ (removeFromCollection "r1" [sampleForestA, sampleMemberR] [sampleBGDeck]).2.length
        = 1 := by
  have h := removeFromCollection_frame [sampleForestA, sampleMemberR] [sampleBGDeck] "r1"
  refine ⟨h.2.2.1 sampleForestA (by simp) (by decide), ?_, h.2.2.2.2.1⟩
  exact h.2.1 { sampleBGDeck with cards := [{ collectionId := "cmd1", qty := 1 }] }
    (by decide) { collectionId := "cmd1", qty := 1 } (by decide)

/-! Claim C7: deck color identity. -/

theorem mem_setAdd (s : List String) (x y : String) : y ∈ setAdd s x ↔ y ∈ s ∨ y = x := by
  unfold setAdd
  by_cases h : x ∈ s
  · rw [if_pos h]
    constructor
    · exact Or.inl
    · rintro (hy | rfl)
      · exact hy
      · exact h
  · rw [if_neg h]
    simp

theorem mem_setAddAll (xs : List String) :
    ∀ (s : List String) (y : String), y ∈ setAddAll s xs ↔ y ∈ s ∨ y ∈ xs := by
  induction xs with
  | nil => simp [setAddAll]
  | cons a t ih =>
    intro s y
    show y ∈ setAddAll (setAdd s a) t ↔ _
    rw [ih (setAdd s a) y, mem_setAdd]
    simp only [List.mem_cons]
    tauto

theorem mem_fold_union (cards : List Card) :
    ∀ (s : List String) (y : String),
      y ∈ cards.foldl (fun s c => setAddAll s c.color_identity) s
        ↔ y ∈ s ∨ ∃ c ∈ cards, y ∈ c.color_identity := by
  induction cards with
  | nil => simp
  | cons a t ih =>
    intro s y
    rw [List.foldl_cons, ih (setAddAll s a.color_identity) y, mem_setAddAll]
    simp only [List.mem_cons]
    constructor
    · rintro ((hy | hy) | ⟨c, hc, hy⟩)
      · exact Or.inl hy
      · exact Or.inr ⟨a, Or.inl rfl, hy⟩
      · exact Or.inr ⟨c, Or.inr hc, hy⟩
    · rintro (hy | ⟨c, hc | hc, hy⟩)
      · exact Or.inl (Or.inl hy)
      · exact Or.inl (Or.inr (hc ▸ hy))
      · exact Or.inr ⟨c, hc, hy⟩

/-- Claim C7: a Commander-format deck whose commander reference resolves in
the collection has exactly the commander's color identity (member cards
ignored); any non-Commander deck has the union of its resolved member
cards' color identities. -/
theorem deckColorIdentity_spec :
    (∀ (deck : Deck) (collection : List Card) (cc : Card),
      deck.format = "Commander" → deck.commander ≠ "" →
      collection.find? (fun c => c.id = deck.commander) = some cc →
      ∀ x, x ∈ deckColorIdentity deck collection ↔ x ∈ cc.color_identity)
    ∧ (∀ (deck : Deck) (collection : List Card),
      deck.format ≠ "Commander" →
      ∀ x, x ∈ deckColorIdentity deck collection
        ↔ ∃ c ∈ deckCardsResolved deck collection, x ∈ c.color_identity) := by
  constructor
  · intro deck collection cc hfmt hcne hfind x
    unfold deckColorIdentity
    simp only [if_neg hcne, hfind, if_pos hfmt]
    rw [mem_setAddAll]
    simp
  · intro deck collection hfmt x
    unfold deckColorIdentity
    simp only [if_neg hfmt]
    rw [mem_fold_union]
    simp

/-- Claim C7 witness: commander color identity {B,G} with a red member
reports {B,G} under Commander format and {B,G,R} under Standard format. -/
theorem deckColorIdentity_spec_witness :
    "B" ∈ deckColorIdentity sampleBGDeck [sampleCommanderBG, sampleMemberR]
    ∧ "R" ∉ deckColorIdentity sampleBGDeck [sampleCommanderBG, sampleMemberR]
    ∧ "R" ∈ deckColorIdentity sampleBGDeckStd [sampleCommanderBG, sampleMemberR]
    ∧ "B" ∈ deckColorIdentity sampleBGDeckStd [sampleCommanderBG, sampleMemberR] := by
  have h := deckColorIdentity_spec.1 sampleBGDeck [sampleCommanderBG, sampleMemberR]
    sampleCommanderBG rfl (by decide) (by decide)
  have h2 := deckColorIdentity_spec.2 sampleBGDeckStd [sampleCommanderBG, sampleMemberR]
    (by decide)
  refine ⟨(h "B").mpr (by decide), ?_, (h2 "R").mpr ?_, (h2 "B").mpr ?_⟩
  · intro hm
    have := (h "R").mp hm
    exact absurd this (by decide)
  · exact ⟨sampleMemberR, by decide, by decide⟩
  · exact ⟨sampleCommanderBG, by decide, by decide⟩

/-! Claim C6: trailing-edge debounce. -/

theorem debounce_chain_fold {σ : Type} :
    ∀ (rest : List (Nat × σ)) (e : Nat × σ) (fired : List (Nat × σ)),
      List.Chain (fun a b => a.1 < b.1 ∧ b.1 < a.1 + SAVE_DEBOUNCE_MS) e rest →
      rest.foldl (fun d ev => mutateAndTrigger d ev.1 ev.2)
          ⟨e.2, some (e.1 + SAVE_DEBOUNCE_MS), fired⟩
        = ⟨(rest.getLastD e).2, some ((rest.getLastD e).1 + SAVE_DEBOUNCE_MS), fired⟩ := by
  intro rest
  induction rest with
  | nil => intro e fired _; rfl
  | cons b t ih =>
    intro e fired hch
    rw [List.chain_cons] at hch
    obtain ⟨⟨_, hlt⟩, hct⟩ := hch
    rw [List.foldl_cons]
    have hmut : mutateAndTrigger
        (⟨e.2, some (e.1 + SAVE_DEBOUNCE_MS), fired⟩ : DebounceState σ) b.1 b.2
        = ⟨b.2, some (b.1 + SAVE_DEBOUNCE_MS), fired⟩ := by
      unfold mutateAndTrigger fireDue triggerSave
      simp only []
      rw [if_neg (by omega)]
    rw [hmut, ih b fired hct, List.getLastD_cons]

/-- Claim C6: for any burst of N ≥ 1 mutations in which each mutation
occurs strictly within the 1.5 s quiet interval of the previous one
(each new mutation cancels and reschedules the pending timer), exactly one
save is issued; it fires one quiet interval after the last mutation and
uses the state as of the last mutation, never an intermediate state. -/
theorem debounce_single_save {σ : Type} (s0 : σ) (e : Nat × σ) (rest : List (Nat × σ))
    (hch : List.Chain (fun a b => a.1 < b.1 ∧ b.1 < a.1 + SAVE_DEBOUNCE_MS) e rest) :
    debounceSaves s0 (e :: rest)
      = [((rest.getLastD e).1 + SAVE_DEBOUNCE_MS, (rest.getLastD e).2)] := by
  unfold debounceSaves runMutations
  rw [List.foldl_cons]
  have hfirst : mutateAndTrigger (⟨s0, none, []⟩ : DebounceState σ) e.1 e.2
      = ⟨e.2, some (e.1 + SAVE_DEBOUNCE_MS), []⟩ := rfl
  rw [hfirst, debounce_chain_fold rest e [] hch]
  rfl

/-- Claim C6 witness: three mutations at 0, 1000, 2000 ms (gaps under
1500 ms) produce exactly one save, at 3500 ms, with the last state. -/
theorem debounce_single_save_witness :
    debounceSaves (0 : Nat) [(0, 1), (1000, 2), (2000, 3)] = [(3500, 3)] := by
  have h := debounce_single_save (0 : Nat) (0, 1) [(1000, 2), (2000, 3)]
    (List.Chain.cons (by decide) (List.Chain.cons (by decide) List.Chain.nil))
  simpa using h

/-! Claim C8: combo scoring and ordering. -/

theorem ratio_le_trans (o1 t1 o2 t2 o3 t3 : Nat) (ht2 : 0 < t2)
    (h12 : o2 * t1 ≤ o1 * t2) (h23 : o3 * t2 ≤ o2 * t3) : o3 * t1 ≤ o1 * t3 := by
  have h : o3 * t1 * t2 ≤ o1 * t3 * t2 := by
    calc o3 * t1 * t2 = (o3 * t2) * t1 := by ring
    _ ≤ (o2 * t3) * t1 := Nat.mul_le_mul_right _ h23
    _ = (o2 * t1) * t3 := by ring
    _ ≤ (o1 * t2) * t3 := Nat.mul_le_mul_right _ h12
    _ = o1 * t3 * t2 := by ring
  exact Nat.le_of_mul_le_mul_right h ht2

theorem ratio_lt_of_lt_le (o1 t1 o2 t2 o3 t3 : Nat) (_ht2 : 0 < t2) (ht3 : 0 < t3)
    (h12 : o2 * t1 < o1 * t2) (h23 : o3 * t2 ≤ o2 * t3) : o3 * t1 < o1 * t3 := by
  have h : o3 * t1 * t2 < o1 * t3 * t2 := by
    calc o3 * t1 * t2 = (o3 * t2) * t1 := by ring
    _ ≤ (o2 * t3) * t1 := Nat.mul_le_mul_right _ h23
    _ = (o2 * t1) * t3 := by ring
    _ < (o1 * t2) * t3 := Nat.mul_lt_mul_of_lt_of_le h12 le_rfl ht3
    _ = o1 * t3 * t2 := by ring
  exact Nat.lt_of_mul_lt_mul_right h

theorem ratio_lt_of_le_lt (o1 t1 o2 t2 o3 t3 : Nat) (ht1 : 0 < t1) (_ht2 : 0 < t2)
    (h12 : o2 * t1 ≤ o1 * t2) (h23 : o3 * t2 < o2 * t3) : o3 * t1 < o1 * t3 := by
  have h : o3 * t1 * t2 < o1 * t3 * t2 := by
    calc o3 * t1 * t2 = (o3 * t2) * t1 := by ring
    _ < (o2 * t3) * t1 := Nat.mul_lt_mul_of_lt_of_le h23 le_rfl ht1
    _ = (o2 * t1) * t3 := by ring
    _ ≤ (o1 * t2) * t3 := Nat.mul_le_mul_right _ h12
    _ = o1 * t3 * t2 := by ring
  exact Nat.lt_of_mul_lt_mul_right h

/-- The comparator decides exactly the specification's descending
lexicographic order on (owned, coverage ratio, popularity). -/
theorem comboCmp_le_iff (a b : ScoredVariant) : comboCmp a b ≤ 0 ↔ comboDescLex a b := by
  have hao := a.owned_le_total
  have hbo := b.owned_le_total
  unfold comboCmp comboDescLex
  by_cases h1 : b.owned = a.owned
  · rw [if_neg (by simp [h1])]
    by_cases hA : a.total ≠ 0 ∧ b.total ≠ 0 ∧ b.owned * a.total ≠ a.owned * b.total
    · rw [if_pos hA]
      obtain ⟨ha0, hb0, hne⟩ := hA
      constructor
      · intro hle
        refine Or.inr ⟨h1.symm, Or.inl ?_⟩
        have hle2 : ((b.owned * a.total : Nat) : Int) ≤ ((a.owned * b.total : Nat) : Int) := by
          omega
        have := Int.ofNat_le.mp hle2
        omega
      · rintro (h | ⟨_, h | ⟨heq, _⟩⟩)
        · omega
        · have : ((b.owned * a.total : Nat) : Int) ≤ ((a.owned * b.total : Nat) : Int) := by
            exact_mod_cast Nat.le_of_lt h
          omega
        · exact absurd heq hne
    · rw [if_neg hA]
      have huv : b.owned * a.total = a.owned * b.total := by
        by_cases ht : a.total = 0
        · have hA0 : a.owned = 0 := by omega
          have hB0 : b.owned = 0 := by omega
          rw [hA0, hB0]
          ring
        · by_cases ht2 : b.total = 0
          · have hB0 : b.owned = 0 := by omega
            have hA0 : a.owned = 0 := by omega
            rw [hA0, hB0]
            ring
          · by_contra hne
            exact hA ⟨ht, ht2, hne⟩
      constructor
      · intro hle
        exact Or.inr ⟨h1.symm, Or.inr ⟨huv, by omega⟩⟩
      · rintro (h | ⟨_, h | ⟨_, hp⟩⟩)
        · omega
        · omega
        · omega
  · rw [if_pos h1]
    constructor
    · intro hle
      left
      omega
    · rintro (h | ⟨heq, _⟩)
      · omega
      · omega

theorem comboDescLex_total (a b : ScoredVariant) : comboDescLex a b ∨ comboDescLex b a := by
  unfold comboDescLex
  by_cases h1 : a.owned = b.owned
  · rcases lt_trichotomy (b.owned * a.total) (a.owned * b.total) with h | h | h
    · exact Or.inl (Or.inr ⟨h1, Or.inl h⟩)
    · rcases le_total b.popularity a.popularity with hp | hp
      · exact Or.inl (Or.inr ⟨h1, Or.inr ⟨h, hp⟩⟩)
      · exact Or.inr (Or.inr ⟨h1.symm, Or.inr ⟨h.symm, hp⟩⟩)
    · exact Or.inr (Or.inr ⟨h1.symm, Or.inl h⟩)
  · rcases Nat.lt_or_ge a.owned b.owned with h | h
    · exact Or.inr (Or.inl h)
    · exact Or.inl (Or.inl (by omega))

theorem comboDescLex_trans (a b c : ScoredVariant)
    (hab : comboDescLex a b) (hbc : comboDescLex b c) : comboDescLex a c := by
  have hao := a.owned_le_total
  have hbo := b.owned_le_total
  have hco := c.owned_le_total
  unfold comboDescLex at hab hbc ⊢
  rcases hab with h1 | ⟨e1, r1⟩
  · rcases hbc with h2 | ⟨e2, r2⟩
    · exact Or.inl (by omega)
    · exact Or.inl (by omega)
  · rcases hbc with h2 | ⟨e2, r2⟩
    · exact Or.inl (by omega)
    · refine Or.inr ⟨by omega, ?_⟩
      by_cases hk : a.owned = 0
      · have hb0 : b.owned = 0 := by omega
        have hc0 : c.owned = 0 := by omega
        refine Or.inr ⟨by rw [hc0, hk]; ring, ?_⟩
        rcases r1 with h | ⟨_, hp1⟩
        · rw [hb0, hk] at h
          simp at h
        · rcases r2 with h | ⟨_, hp2⟩
          · rw [hc0, hb0] at h
            simp at h
          · omega
      · have ha0 : 0 < a.total := by omega
        have hb0 : 0 < b.total := by omega
        have hc0 : 0 < c.total := by omega
        rcases r1 with h1' | ⟨heq1, hp1⟩ <;> rcases r2 with h2' | ⟨heq2, hp2⟩
        · exact Or.inl (ratio_lt_of_lt_le a.owned a.total b.owned b.total c.owned c.total
            hb0 hc0 h1' (Nat.le_of_lt h2'))
        · exact Or.inl (ratio_lt_of_lt_le a.owned a.total b.owned b.total c.owned c.total
            hb0 hc0 h1' (le_of_eq heq2))
        · exact Or.inl (ratio_lt_of_le_lt a.owned a.total b.owned b.total c.owned c.total
            ha0 hb0 (le_of_eq heq1) h2')
        · refine Or.inr ⟨?_, by omega⟩
          apply Nat.le_antisymm
          · exact ratio_le_trans a.owned a.total b.owned b.total c.owned c.total hb0
              (le_of_eq heq1) (le_of_eq heq2)
          · exact ratio_le_trans c.owned c.total b.owned b.total a.owned a.total hb0
              (le_of_eq heq2.symm) (le_of_eq heq1.symm)

/-- Claim C8: each variant is scored with the count of its required card
names present in the deck and the total required count (whose quotient is
the coverage ratio), and the sort output is a permutation of the scored
variants, ordered descending lexicographically by (owned count, coverage
ratio, popularity); in particular the fully-owned {A,B} variant sorts
before the {A,B,C} variant with only {A,B} owned despite a far larger
popularity on the latter. -/
theorem findCombos_spec (deckNames : List String) (all : List ComboVariant) :
    (∀ v ∈ all, (scoreVariant deckNames v).owned
          = (v.uses.map jsStrToLower).countP (fun n => decide (n ∈ deckNames))
      ∧ (scoreVariant deckNames v).total = v.uses.length)
    ∧ (findCombosSort deckNames all).Perm (all.map (scoreVariant deckNames))
    ∧ List.Sorted comboDescLex (findCombosSort deckNames all)
    ∧ (findCombosSort ["a", "b"] [comboABC, comboAB]).map (fun s => s.id)
        = ["combo-ab", "combo-abc"] := by
  refine ⟨?_, List.perm_insertionSort _ _, ?_, by decide⟩
  · intro v _
    refine ⟨?_, List.length_map _ _⟩
    rw [List.countP_eq_length_filter]
    rfl
  · have hs := @List.sorted_insertionSort ScoredVariant (fun a b => comboCmp a b ≤ 0) _
      ⟨fun a b => by
        rcases comboDescLex_total a b with h | h
        · exact Or.inl ((comboCmp_le_iff a b).mpr h)
        · exact Or.inr ((comboCmp_le_iff b a).mpr h)⟩
      ⟨fun a b c hab hbc => (comboCmp_le_iff a c).mpr
        (comboDescLex_trans a b c ((comboCmp_le_iff a b).mp hab)
          ((comboCmp_le_iff b c).mp hbc))⟩
      (all.map (scoreVariant deckNames))
    exact hs.imp (fun hab => (comboCmp_le_iff _ _).mp hab)

/-- Claim C8 witness: the scoring formula instantiated at the {A,B} combo
against a deck owning a and b. -/
theorem findCombos_spec_witness :
    (scoreVariant ["a", "b"] comboAB).owned = 2
    ∧ (scoreVariant ["a", "b"] comboAB).total = 2 := by
  have h := (findCombos_spec ["a", "b"] [comboABC, comboAB]).1 comboAB (by decide)
  constructor
  · rw [h.1]
    decide
  · rw [h.2]
    decide
